import Mathlib

/-!
Verification development for the device-management front-end scripts
(`src/unnamed/part_000`, the shared utility library, and
`src/admin_service/static/admin/admin_mobile.js`, the mobile admin
controller).  JavaScript strings are embedded as Lean `String`
(or `List Char` where positional reasoning is needed), JS `null` /
`undefined` as `Option`, numbers that matter as `Nat` / `Int`, and the
browser environment (DOM input values, fetch responses, timer events,
localStorage) as explicit parameters and state records.
-/

namespace MDM

/-- Decimal digit character for a value below ten: `48 + n` is the ASCII
code of the digit. -/
def digitChar (n : Nat) : Char := Char.ofNat (48 + n)

/-- Fuel-driven decimal rendering helper; with fuel at least the number
itself the result is the full decimal form. -/
def natDigitsAux : Nat → Nat → List Char
  | 0, _ => []
  | fuel + 1, n =>
    if n < 10 then [digitChar n] else natDigitsAux fuel (n / 10) ++ [digitChar (n % 10)]

/-- Decimal rendering of a natural number, as in the JS conversion
`String(n)` for a non-negative integer. -/
def natDigits (n : Nat) : List Char := natDigitsAux (n + 1) n

/-- Decimal rendering of a natural number as a `String`. -/
def natStr (n : Nat) : String := String.mk (natDigits n)

/-- Numeric value of a list of decimal digit characters. -/
def natOfDigits (ds : List Char) : Nat := ds.foldl (fun a c => 10 * a + (c.toNat - 48)) 0

/-- Model of `String(n).padStart(2, '0')` from `formatDate`. -/
def pad2 (n : Nat) : List Char :=
  let ds := natDigits n
  if ds.length < 2 then List.replicate (2 - ds.length) '0' ++ ds else ds

/-- Model of the JS expression `m || dflt` on a nullable string:
`undefined`, `null` and the empty string are falsy and select the
fallback. -/
def jsOrElse (m : Option String) (dflt : String) : String :=
  match m with
  | none => dflt
  | some s => if s = "" then dflt else s

/-- Model of the JS `String.prototype.trim` call: whitespace is removed
from both ends. -/
def jsTrim (s : String) : String :=
  String.mk (((s.data.dropWhile Char.isWhitespace).reverse.dropWhile Char.isWhitespace).reverse)

/-- Model of JS `parseInt` in base 10 (no hex form): leading whitespace
is skipped, an optional sign is read, then the maximal run of leading
digits; `none` models `NaN` when no digit is found. -/
def parseIntJs (s : String) : Option Int :=
  let t := s.data.dropWhile Char.isWhitespace
  match t with
  | '-' :: rest =>
    let ds := rest.takeWhile Char.isDigit
    if ds.isEmpty then none else some (-(Int.ofNat (natOfDigits ds)))
  | '+' :: rest =>
    let ds := rest.takeWhile Char.isDigit
    if ds.isEmpty then none else some (Int.ofNat (natOfDigits ds))
  | cs =>
    let ds := cs.takeWhile Char.isDigit
    if ds.isEmpty then none else some (Int.ofNat (natOfDigits ds))

/-! ### formatDate (utility library, lines 19-33)

`formatDate` builds year/month/day/hour/minute components of the parsed
date and then chains five `String.prototype.replace` calls (each
replacing the first occurrence of its token).  The components delivered
by the `Date` accessors are embedded as a record of naturals. -/

/-- Components of a parsed JS `Date` as read by `getFullYear`,
`getMonth() + 1`, `getDate`, `getHours`, `getMinutes`. -/
structure DateParts where
  year : Nat
  month : Nat
  day : Nat
  hour : Nat
  minute : Nat
deriving DecidableEq

/-- Model of `String.prototype.replace` with a plain-string pattern: only
the first occurrence is replaced; the string is returned unchanged when
the pattern does not occur. -/
def replaceFirst (pat rep : List Char) : List Char → List Char
  | [] => []
  | c :: rest =>
    if pat.isPrefixOf (c :: rest) then rep ++ List.drop pat.length (c :: rest)
    else c :: replaceFirst pat rep rest

/-- Number of (possibly overlapping) occurrences of `pat` in a string:
one is counted at every position where `pat` is a prefix of the
remaining suffix. -/
def countOcc (pat : List Char) : List Char → Nat
  | [] => 0
  | c :: rest => (if pat.isPrefixOf (c :: rest) then 1 else 0) + countOcc pat rest

/-- The YYYY token of `formatDate`. -/
def tokY : List Char := List.replicate 4 'Y'
/-- The MM token of `formatDate`. -/
def tokM : List Char := List.replicate 2 'M'
/-- The DD token of `formatDate`. -/
def tokD : List Char := List.replicate 2 'D'
/-- The HH token of `formatDate`. -/
def tokH : List Char := List.replicate 2 'H'
/-- The mm token of `formatDate`. -/
def tokm : List Char := List.replicate 2 'm'

/-- Model of `formatDate(date, format)`: the five sequential
`replace` calls of the source, innermost first, i.e. YYYY, then MM,
DD, HH, mm. -/
def formatDateL (d : DateParts) (fmt : List Char) : List Char :=
  replaceFirst tokm (pad2 d.minute)
    (replaceFirst tokH (pad2 d.hour)
      (replaceFirst tokD (pad2 d.day)
        (replaceFirst tokM (pad2 d.month)
          (replaceFirst tokY (natDigits d.year) fmt))))

/-- Rendering of a format string as the specification describes it: a
single left-to-right pass in which each token is replaced by its value
(the decimal year for YYYY, two-digit zero-padded values for MM, DD,
HH, mm) and every other character is kept. -/
def renderFormat (d : DateParts) : List Char → List Char
  | [] => []
  | c :: rest =>
    if tokY.isPrefixOf (c :: rest) then natDigits d.year ++ renderFormat d (rest.drop 3)
    else if tokM.isPrefixOf (c :: rest) then pad2 d.month ++ renderFormat d (rest.drop 1)
    else if tokD.isPrefixOf (c :: rest) then pad2 d.day ++ renderFormat d (rest.drop 1)
    else if tokH.isPrefixOf (c :: rest) then pad2 d.hour ++ renderFormat d (rest.drop 1)
    else if tokm.isPrefixOf (c :: rest) then pad2 d.minute ++ renderFormat d (rest.drop 1)
    else c :: renderFormat d rest
termination_by s => s.length
decreasing_by
  all_goals simp only [List.length_drop, List.length_cons]
  all_goals omega

/-! ### maskPhone (utility library, lines 36-39)

`maskPhone(phone)` returns the input unchanged when it is falsy or its
length differs from 11, and otherwise splices the first three
characters, four asterisks, and the characters from index 7 on.  The
nullable JS string argument is embedded as `Option (List Char)`. -/

/-- Model of `maskPhone`: `none` embeds a JS `null`/`undefined`
argument. -/
def maskPhone (phone : Option (List Char)) : Option (List Char) :=
  match phone with
  | none => none
  | some s =>
    if s = [] ∨ s.length ≠ 11 then some s
    else some (s.take 3 ++ ['*', '*', '*', '*'] ++ s.drop 7)

/-! ### debounce and throttle (utility library, lines 42-64)

Both wrappers are closures over timer state, driven by the
single-threaded browser event loop.  We embed one interaction history
as the (strictly increasing) list of the times at which the wrapper is
called, and compute the times at which the wrapped function fires.
`setTimeout(f, w)` at time `t` schedules `f` for time `t + w`;
`clearTimeout` drops the pending schedule; a pending timer whose time
has been reached fires before any later call is processed. -/

/-- Event-loop run of a `debounce(func, wait)` wrapper: `pending` is the
time at which the currently scheduled timer would fire (`none` when no
timer is scheduled).  Each call clears the pending timer and schedules
a new one `wait` later; a pending timer fires when its time arrives
before (or at) the next call. -/
def debounceRun (wait : Nat) : List Nat → Option Nat → List Nat
  | [], pending =>
    match pending with
    | some f => [f]
    | none => []
  | t :: rest, pending =>
    match pending with
    | some f =>
      if f ≤ t then f :: debounceRun wait rest (some (t + wait))
      else debounceRun wait rest (some (t + wait))
    | none => debounceRun wait rest (some (t + wait))

/-- Event-loop run of a `throttle(func, limit)` wrapper: `clearAt` is
the time at which the `inThrottle` flag resets (`none` when the flag
has never been set).  A call while the flag is still set is dropped;
otherwise the wrapped function fires immediately and the flag is set
for `limit`. -/
def throttleRun (limit : Nat) : List Nat → Option Nat → List Nat
  | [], _ => []
  | t :: rest, clearAt =>
    match clearAt with
    | some c =>
      if t < c then throttleRun limit rest (some c)
      else t :: throttleRun limit rest (some (t + limit))
    | none => t :: throttleRun limit rest (some (t + limit))

/-! ### storage wrapper (utility library, lines 91-115)

`storage` wraps `localStorage` with `JSON.stringify` / `JSON.parse` and
swallows every error.  `localStorage` is embedded as an association
list from keys to stored strings (most recent entry first), JSON
values as an inductive type (integral numbers; string escaping limited
to quote and backslash — the platform JSON codec is not repository
code), and the possibility of `setItem` / `removeItem` throwing (for
example on quota) as an explicit success flag. -/

/-- JSON values storable through the wrapper. -/
inductive JsonV where
  | jnull : JsonV
  | jbool : Bool → JsonV
  | jnum : Int → JsonV
  | jstr : String → JsonV
  | jarr : List JsonV → JsonV
  | jobj : List (String × JsonV) → JsonV

/-- Escape of one character inside a JSON string literal (quote and
backslash). -/
def escChar (c : Char) : List Char :=
  if c = '"' then ['\\', '"'] else if c = '\\' then ['\\', '\\'] else [c]

/-- JSON string literal with surrounding quotes. -/
def jstrLit (s : String) : List Char :=
  '"' :: (s.data.foldr (fun c acc => escChar c ++ acc) []) ++ ['"']

/-- Decimal rendering of an integer. -/
def intDigits (n : Int) : List Char :=
  if n < 0 then '-' :: natDigits n.natAbs else natDigits n.toNat

mutual

/-- Model of `JSON.stringify` on the embedded JSON values. -/
def jsonStringifyL : JsonV → List Char
  | JsonV.jnull => ['n', 'u', 'l', 'l']
  | JsonV.jbool true => ['t', 'r', 'u', 'e']
  | JsonV.jbool false => ['f', 'a', 'l', 's', 'e']
  | JsonV.jnum n => intDigits n
  | JsonV.jstr s => jstrLit s
  | JsonV.jarr xs => '[' :: jsonArrBody xs ++ [']']
  | JsonV.jobj fs => Char.ofNat 123 :: jsonObjBody fs ++ [Char.ofNat 125]

/-- Comma-separated stringified array elements. -/
def jsonArrBody : List JsonV → List Char
  | [] => []
  | [x] => jsonStringifyL x
  | x :: y :: xs => jsonStringifyL x ++ ',' :: jsonArrBody (y :: xs)

/-- Comma-separated stringified object fields. -/
def jsonObjBody : List (String × JsonV) → List Char
  | [] => []
  | [(k, v)] => jstrLit k ++ ':' :: jsonStringifyL v
  | (k, v) :: f :: fs => jstrLit k ++ ':' :: jsonStringifyL v ++ ',' :: jsonObjBody (f :: fs)

end

/-- Parse of a JSON string literal body up to the closing quote,
returning the decoded characters and the remaining input. -/
def parseStrBody : List Char → Option (List Char × List Char)
  | [] => none
  | '"' :: rest => some ([], rest)
  | '\\' :: e :: rest =>
    if e = '"' ∨ e = '\\' then
      (parseStrBody rest).map (fun p => (e :: p.1, p.2))
    else none
  | c :: rest => (parseStrBody rest).map (fun p => (c :: p.1, p.2))

mutual

/-- Fuel-driven recursive-descent model of `JSON.parse` on one value;
returns the value and the unconsumed input. -/
def parseJ : Nat → List Char → Option (JsonV × List Char)
  | 0, _ => none
  | fuel + 1, cs =>
    if ['n', 'u', 'l', 'l'].isPrefixOf cs then some (JsonV.jnull, cs.drop 4)
    else if ['t', 'r', 'u', 'e'].isPrefixOf cs then some (JsonV.jbool true, cs.drop 4)
    else if ['f', 'a', 'l', 's', 'e'].isPrefixOf cs then some (JsonV.jbool false, cs.drop 5)
    else
      match cs with
      | [] => none
      | c :: rest =>
        if c = '-' then
          let ds := rest.takeWhile Char.isDigit
          if ds.isEmpty then none
          else some (JsonV.jnum (-(Int.ofNat (natOfDigits ds))), rest.drop ds.length)
        else if c.isDigit then
          let ds := cs.takeWhile Char.isDigit
          if ds.isEmpty then none
          else some (JsonV.jnum (Int.ofNat (natOfDigits ds)), cs.drop ds.length)
        else if c = '"' then
          (parseStrBody rest).map (fun p => (JsonV.jstr (String.mk p.1), p.2))
        else if c = '[' then
          match rest with
          | ']' :: rest2 => some (JsonV.jarr [], rest2)
          | _ =>
            match parseJ fuel rest with
            | none => none
            | some (v, cs1) =>
              match parseItems fuel cs1 with
              | none => none
              | some (vs, cs2) => some (JsonV.jarr (v :: vs), cs2)
        else if c = Char.ofNat 123 then
          match rest with
          | _ =>
            if rest.headD ' ' = Char.ofNat 125 then some (JsonV.jobj [], rest.drop 1)
            else
              match parseField fuel rest with
              | none => none
              | some (kv, cs1) =>
                match parseFields fuel cs1 with
                | none => none
                | some (kvs, cs2) => some (JsonV.jobj (kv :: kvs), cs2)
        else none

/-- Remaining array elements: a closing bracket ends the array, a comma
is followed by one more value. -/
def parseItems : Nat → List Char → Option (List JsonV × List Char)
  | 0, _ => none
  | fuel + 1, cs =>
    match cs with
    | ']' :: rest => some ([], rest)
    | ',' :: rest =>
      match parseJ fuel rest with
      | none => none
      | some (v, cs1) =>
        match parseItems fuel cs1 with
        | none => none
        | some (vs, cs2) => some (v :: vs, cs2)
    | _ => none

/-- One object field: quoted key, colon, value. -/
def parseField : Nat → List Char → Option ((String × JsonV) × List Char)
  | 0, _ => none
  | fuel + 1, cs =>
    match cs with
    | '"' :: rest =>
      match parseStrBody rest with
      | none => none
      | some (k, cs1) =>
        match cs1 with
        | ':' :: cs2 =>
          match parseJ fuel cs2 with
          | none => none
          | some (v, cs3) => some ((String.mk k, v), cs3)
        | _ => none
    | _ => none

/-- Remaining object fields: a closing brace ends the object, a comma is
followed by one more field. -/
def parseFields : Nat → List Char → Option (List (String × JsonV) × List Char)
  | 0, _ => none
  | fuel + 1, cs =>
    match cs with
    | ',' :: rest =>
      match parseField fuel rest with
      | none => none
      | some (kv, cs1) =>
        match parseFields fuel cs1 with
        | none => none
        | some (kvs, cs2) => some (kv :: kvs, cs2)
    | c :: rest =>
      if c = Char.ofNat 125 then some ([], rest) else none
    | _ => none

end

/-- Model of `JSON.parse` on a whole string: `none` embeds the thrown
`SyntaxError` of a failed parse. -/
def jsonParse (s : String) : Option JsonV :=
  match parseJ (s.data.length + 1) s.data with
  | some (v, []) => some v
  | _ => none

/-- The persistent key-value store behind the wrapper: newest entry
first, lookup takes the first match. -/
def Store : Type := List (String × String)

/-- Lookup of a key, `none` embedding the `null` of a missing entry. -/
def storeLookup (st : Store) (k : String) : Option String :=
  (List.find? (fun p => p.1 == k) st).map Prod.snd

/-- Model of `storage.set`: on success the stringified value is stored;
a throwing `setItem` (`ok = false`) is swallowed and leaves the store
unchanged. -/
def jsSet (st : Store) (k : String) (v : JsonV) (ok : Bool) : Store :=
  if ok then (k, String.mk (jsonStringifyL v)) :: st else st

/-- Model of `storage.get`: a missing or empty entry yields the default,
a failed `JSON.parse` is swallowed and yields the default. -/
def jsGet (st : Store) (k : String) (dflt : JsonV) : JsonV :=
  match storeLookup st k with
  | none => dflt
  | some item =>
    if item = "" then dflt
    else
      match jsonParse item with
      | some v => v
      | none => dflt

/-- Model of `storage.remove`: a throwing `removeItem` is swallowed and
leaves the store unchanged. -/
def jsRemove (st : Store) (k : String) (ok : Bool) : Store :=
  if ok then List.filter (fun p => p.1 ≠ k) st else st

/-! ### validators and validateForm (utility library, lines 118-181)

Form values are embedded as `Option String` (`none` is a field missing
from `formData`, read as `undefined`).  A rule is one of the shapes the
code distinguishes: an arbitrary function, a bare message string
(interpreted through `validators.required`), or an array
`[validatorName, ...args]` naming one of the four validators.  A JS
rule result that is not `true` is recorded as the error message, so
results are embedded as `jtrue` or a carried value.  `minLength` and
`maxLength` read `value.length`, which throws a `TypeError` when the
value is `undefined`; the throw is embedded as `Except.error`. -/

/-- Result of evaluating one rule: `true`, or the non-`true` value that
gets recorded as the error message. -/
inductive JsRes where
  | jtrue : JsRes
  | jval : String → JsRes
deriving DecidableEq

/-- The JS exception thrown by reading `.length` of `undefined`. -/
inductive JsErr where
  | typeError : JsErr
deriving DecidableEq

/-- Model of `validators.required`: falsy values (`undefined`, the empty
string) and all-whitespace strings fail with the message. -/
def vRequired (value : Option String) (message : String) : JsRes :=
  match value with
  | none => JsRes.jval message
  | some s => if s = "" then JsRes.jval message
    else if jsTrim s = "" then JsRes.jval message else JsRes.jtrue

/-- The test of the regex of `validators.phone`: 11 characters, a
leading 1, a second digit between 3 and 9, nine trailing digits. -/
def phoneTest (s : String) : Bool :=
  match s.data with
  | '1' :: c2 :: rest => ('3' ≤ c2 && c2 ≤ '9') && rest.length == 9 && rest.all Char.isDigit
  | _ => false

/-- Model of `validators.phone`; `regex.test(undefined)` coerces the
argument to the string "undefined", which fails the pattern. -/
def vPhone (value : Option String) (message : String) : JsRes :=
  let s := match value with
    | none => "undefined"
    | some s => s
  if phoneTest s then JsRes.jtrue else JsRes.jval message

/-- Model of `validators.minLength`: the message falls back on the
built default when falsy (`message = message || ...`), and reading
`value.length` of a missing value throws. -/
def vMinLength (value : Option String) (len : Nat) (message : Option String) :
    Except JsErr JsRes :=
  match value with
  | none => Except.error JsErr.typeError
  | some s =>
    let msg := jsOrElse message ("最少需要" ++ natStr len ++ "个字符")
    if s.length < len then Except.ok (JsRes.jval msg) else Except.ok JsRes.jtrue

/-- Model of `validators.maxLength`: the message falls back on the
built default when falsy (`message = message || ...`), and reading
`value.length` of a missing value throws. -/
def vMaxLength (value : Option String) (len : Nat) (message : Option String) :
    Except JsErr JsRes :=
  match value with
  | none => Except.error JsErr.typeError
  | some s =>
    let msg := jsOrElse message ("最多" ++ natStr len ++ "个字符")
    if s.length > len then Except.ok (JsRes.jval msg) else Except.ok JsRes.jtrue

/-- One rule of a field, in the three shapes `validateForm`
distinguishes; the array shape is split by validator name, with the
optional trailing message argument. -/
inductive Rule where
  | fn : (Option String → JsRes) → Rule
  | req : String → Rule
  | vreq : Option String → Rule
  | vphone : Option String → Rule
  | vmin : Nat → Option String → Rule
  | vmax : Nat → Option String → Rule

/-- Evaluation of one rule on the field value, as in the body of the
inner loop of `validateForm`. -/
def applyRule (value : Option String) : Rule → Except JsErr JsRes
  | Rule.fn f => Except.ok (f value)
  | Rule.req m => Except.ok (vRequired value m)
  | Rule.vreq m => Except.ok (vRequired value (m.getD "此项为必填"))
  | Rule.vphone m => Except.ok (vPhone value (m.getD "请输入正确的手机号"))
  | Rule.vmin len m => vMinLength value len m
  | Rule.vmax len m => vMaxLength value len m

/-- The inner loop of `validateForm`: rules of one field run in order,
the first non-`true` result is returned and ends the loop (`break`). -/
def runRules (value : Option String) : List Rule → Except JsErr (Option String)
  | [] => Except.ok none
  | r :: rs =>
    match applyRule value r with
    | Except.error e => Except.error e
    | Except.ok JsRes.jtrue => runRules value rs
    | Except.ok (JsRes.jval m) => Except.ok (some m)

/-- Lookup `formData[field]`; `none` is the `undefined` of a missing
key. -/
def lookupField (formData : List (String × String)) (f : String) : Option String :=
  (List.find? (fun p => p.1 == f) formData).map Prod.snd

/-- The outer loop of `validateForm`, accumulating `errors` entries in
field order. -/
def validateGo (formData : List (String × String)) :
    List (String × List Rule) → Except JsErr (List (String × String))
  | [] => Except.ok []
  | (f, rs) :: rest =>
    match runRules (lookupField formData f) rs with
    | Except.error e => Except.error e
    | Except.ok none => validateGo formData rest
    | Except.ok (some msg) =>
      (validateGo formData rest).map (fun errs => (f, msg) :: errs)

/-- Model of `validateForm(formData, rules)`: the result pairs
`isValid` (no error key recorded) with the `errors` entries. -/
def validateForm (formData : List (String × String))
    (rules : List (String × List Rule)) : Except JsErr (Bool × List (String × String)) :=
  (validateGo formData rules).map (fun errs => (errs.isEmpty, errs))

/-- First failing rule message of a field, as the specification words
it: rules are read in order and the first whose result is not `true`
supplies the message (a rule that throws supplies nothing). -/
def firstFailingMessage (value : Option String) : List Rule → Option String
  | [] => none
  | r :: rs =>
    match applyRule value r with
    | Except.ok JsRes.jtrue => firstFailingMessage value rs
    | Except.ok (JsRes.jval m) => some m
    | Except.error _ => none

/-! ### Admin mobile controller (admin_mobile.js)

This script as shipped never runs: the switch statement of
`confirmEdit` declares `const remarks` twice (lines 251 and 291) in
its single CaseBlock scope — the case clauses are not braced — which
is an ECMA-262 early SyntaxError, so the whole script fails at parse
time and none of its functions or globals is ever defined.  The
definition `adminScriptLoads` records this load gate; the function
definitions below model what the bodies, as written, would do (the
evident intent the specification describes), with the two `remarks`
reads given disjoint bindings.

In the body models, the page state is the global mutable triple plus
the visibility of the edit modal; the `devices` array supplied by the
sibling script, the DOM input values read inside `confirmEdit`, the
fetched user list of `loadUsers`, and the network outcome of the
confirm request are explicit parameters.  A fetch rejection and a
response whose body fails to parse as JSON both land in the same
`catch`, so the network outcome is `Option Response`. -/

/-- The names bound by `const` declarations inside the single
CaseBlock scope of the switch of `confirmEdit` (lines 249-305), in
source order; the case clauses are unbraced, so all share one lexical
scope, and `remarks` appears twice (lines 251 and 291). -/
def confirmEditCaseBlockDecls : List String :=
  ["user", "days", "remarks", "transferUser", "transferRemarks",
    "model", "cabinet", "remarks", "fieldValue", "fieldName"]

/-- Whether a list of lexically declared names contains a duplicate. -/
def hasDupDecl : List String → Bool
  | [] => false
  | x :: xs => xs.contains x || hasDupDecl xs

/-- Modelled from ECMA-262 (early errors of the switch statement: the
lexically declared names of a CaseBlock must contain no duplicate
entries; a script with an early error is never evaluated):
admin_mobile.js loads exactly when the CaseBlock declarations of
`confirmEdit` are duplicate-free.  With `remarks` declared twice this
is false — the browser raises a SyntaxError at parse time and none of
the script's functions or globals ever exists. -/
def adminScriptLoads : Bool := !(hasDupDecl confirmEditCaseBlockDecls)

/-- A device row of the global `devices` array. -/
structure Device where
  id : Nat
  device_name : String
  model : Option String
  cabinet : Option String
  remarks : Option String
  borrower : Option String
  status : Option String
deriving DecidableEq

/-- A user row of `/api/users`. -/
structure User where
  borrower_name : String
  weixin_name : Option String
deriving DecidableEq

/-- The mutable page state: the editing session (`currentDevice`,
`currentEditType`), the cached user list, and whether the edit modal
carries the `show` class. -/
structure AdminState where
  currentDevice : Option Device
  currentEditType : String
  users : List User
  modalShown : Bool
deriving DecidableEq

/-- The DOM input values read by `confirmEdit`, one per input id the
handler queries. -/
structure EditInputs where
  borrowUser : String
  borrowDays : String
  borrowRemarks : String
  transferUser : String
  transferRemarks : String
  deviceModel : String
  deviceCabinet : String
  deviceRemarks : String
  fieldValue : String
deriving DecidableEq

/-- A JSON body value of a confirm request: a string field, or the
`parseInt` result of the days field (`none` embedding `NaN`). -/
inductive JVal where
  | jstr : String → JVal
  | jnum : Option Int → JVal
deriving DecidableEq

/-- A REST request issued by `confirmEdit`: method, URL, and the JSON
body as an ordered key-value list (`none` when no body is sent). -/
structure Request where
  method : String
  url : String
  body : Option (List (String × JVal))
deriving DecidableEq

/-- The parsed JSON body of a confirm response. -/
structure Response where
  success : Bool
  message : Option String
deriving DecidableEq

/-- The observable effects of one `confirmEdit` run: requests issued,
toast messages shown, and whether `loadDevices()` was triggered. -/
structure Effects where
  requests : List Request
  toasts : List String
  reloaded : Bool
deriving DecidableEq

/-- URL stem for one device, as in the template literals. -/
def devUrl (id : Nat) : String := "/api/devices/" ++ natStr id

/-- Shared response handling of the body of `confirmEdit` as written:
success shows the success toast, closes the modal through
`closeEditModal` and triggers the list reload; a non-success body
shows `response.message || '操作失败'` — a falsy message (absent or
the empty string) falls back to the generic failure string; a network
or parse error is caught and shows the generic network-error toast. -/
def respond (st : AdminState) (r : Request) (net : Option Response) :
    AdminState × Effects :=
  match net with
  | none => (st, ⟨[r], ["网络错误"], false⟩)
  | some resp =>
    if resp.success then
      ({ st with currentDevice := none, currentEditType := "", modalShown := false },
        ⟨[r], ["操作成功"], true⟩)
    else (st, ⟨[r], [jsOrElse resp.message "操作失败"], false⟩)

/-- The dispatch of the body of `confirmEdit` as written — the evident
intent the specification describes.  At runtime this function never
comes into existence: its switch CaseBlock redeclares `const remarks`
(lines 251 and 291), an early SyntaxError that keeps the whole script
from loading (see `adminScriptLoads`); the model gives the two
`remarks` reads disjoint bindings.  As written: a run with no current
device returns at once; otherwise the switch on `currentEditType`
validates required inputs, issues the request of the active tag, and
hands the outcome to the response handling.  A tag outside the switch
leaves `result` undefined, so `result.json()` throws and the catch
shows the network-error toast.  For the four field tags,
`currentEditType.replace('field_', '')` is the suffix after the six
characters "field_". -/
def confirmEdit (st : AdminState) (inp : EditInputs) (net : Option Response) :
    AdminState × Effects :=
  match st.currentDevice with
  | none => (st, ⟨[], [], false⟩)
  | some dev =>
    if st.currentEditType = "borrow" then
      let user := jsTrim inp.borrowUser
      let remarks := jsTrim inp.borrowRemarks
      if user = "" then (st, ⟨[], ["请选择借用人"], false⟩)
      else
        respond st
          ⟨"POST", devUrl dev.id ++ "/borrow",
            some [("user", JVal.jstr user), ("days", JVal.jnum (parseIntJs inp.borrowDays)),
              ("remarks", JVal.jstr remarks)]⟩ net
    else if st.currentEditType = "return" then
      respond st ⟨"POST", devUrl dev.id ++ "/return", none⟩ net
    else if st.currentEditType = "transfer" then
      let user := jsTrim inp.transferUser
      let remarks := jsTrim inp.transferRemarks
      if user = "" then (st, ⟨[], ["请选择新借用人"], false⟩)
      else
        respond st
          ⟨"POST", devUrl dev.id ++ "/transfer",
            some [("user", JVal.jstr user), ("remarks", JVal.jstr remarks)]⟩ net
    else if st.currentEditType = "edit" then
      respond st
        ⟨"PUT", devUrl dev.id,
          some [("model", JVal.jstr (jsTrim inp.deviceModel)),
            ("cabinet", JVal.jstr (jsTrim inp.deviceCabinet)),
            ("remarks", JVal.jstr (jsTrim inp.deviceRemarks))]⟩ net
    else if st.currentEditType = "field_borrower" ∨ st.currentEditType = "field_cabinet"
        ∨ st.currentEditType = "field_keeper" ∨ st.currentEditType = "field_status" then
      respond st
        ⟨"PUT", devUrl dev.id,
          some [(st.currentEditType.drop 6, JVal.jstr (jsTrim inp.fieldValue))]⟩ net
    else (st, ⟨[], ["网络错误"], false⟩)

/-- Lookup of `devices.find(d => d.id === deviceId)`. -/
def findDevice (devices : List Device) (deviceId : Nat) : Option Device :=
  List.find? (fun d => d.id == deviceId) devices

/-- The body of `showBorrowModal` as written (never defined at runtime,
see `adminScriptLoads`): an unknown id returns before any state
change; otherwise the session is overwritten, `loadUsers` refreshes the
user cache when its fetch succeeds (a failed fetch is caught and leaves
the cache), and the modal is shown with the borrow tag. -/
def showBorrowModal (devices : List Device) (st : AdminState) (deviceId : Nat)
    (fetched : Option (List User)) : AdminState :=
  match findDevice devices deviceId with
  | none => st
  | some device =>
    { st with
      currentDevice := some device
      users := match fetched with
        | some us => us
        | none => st.users
      currentEditType := "borrow"
      modalShown := true }

/-- The body of `showReturnModal` as written. -/
def showReturnModal (devices : List Device) (st : AdminState) (deviceId : Nat) :
    AdminState :=
  match findDevice devices deviceId with
  | none => st
  | some device =>
    { st with currentDevice := some device, currentEditType := "return", modalShown := true }

/-- The body of `showTransferModal` as written (also refreshes the
user cache). -/
def showTransferModal (devices : List Device) (st : AdminState) (deviceId : Nat)
    (fetched : Option (List User)) : AdminState :=
  match findDevice devices deviceId with
  | none => st
  | some device =>
    { st with
      currentDevice := some device
      users := match fetched with
        | some us => us
        | none => st.users
      currentEditType := "transfer"
      modalShown := true }

/-- The body of `showEditModal` as written. -/
def showEditModal (devices : List Device) (st : AdminState) (deviceId : Nat) :
    AdminState :=
  match findDevice devices deviceId with
  | none => st
  | some device =>
    { st with currentDevice := some device, currentEditType := "edit", modalShown := true }

/-- The body of `showEditFieldModal` as written: the session tag is
"field_" plus the field type argument. -/
def showEditFieldModal (devices : List Device) (st : AdminState) (deviceId : Nat)
    (fieldType : String) : AdminState :=
  match findDevice devices deviceId with
  | none => st
  | some device =>
    { st with
      currentDevice := some device
      currentEditType := "field_" ++ fieldType
      modalShown := true }

/-! ## Theorems -/
/-- C1 (code bug): the script never loads — the switch CaseBlock of
`confirmEdit` redeclares `const remarks`, an early SyntaxError — so no
REST request of any kind is ever issued.  The dispatch as written
would send exactly the claimed borrow request, while its field_keeper
case would send the body key `keeper`, which is outside the claimed
key set. -/
theorem confirmEdit_requests_bug :
    adminScriptLoads = false ∧
    (confirmEdit ⟨some ⟨7, "n", none, none, none, none, none⟩, "borrow", [], true⟩
        ⟨"alice", "3", "", "", "", "", "", "", ""⟩ (some ⟨true, none⟩)).2.requests =
      [⟨"POST", "/api/devices/7/borrow",
        some [("user", JVal.jstr "alice"), ("days", JVal.jnum (some 3)),
          ("remarks", JVal.jstr "")]⟩] ∧
    (confirmEdit ⟨some ⟨1, "n", none, none, none, none, none⟩, "field_keeper", [], true⟩
        ⟨"", "", "", "", "", "", "", "", "A"⟩ (some ⟨true, none⟩)).2.requests =
      [⟨"PUT", "/api/devices/1", some [("keeper", JVal.jstr "A")]⟩] ∧
    ("keeper" : String) ∉
      (["model", "cabinet", "remarks", "borrower", "status"] : List String) := by
  refine ⟨by decide, by decide, by decide, by decide⟩

/-- C2 (code bug): the claimed handling — success toast, modal close
and reload on a success body; only a toast on a non-success body (its
message when truthy, otherwise the generic failure string) or on a
caught network error — is the evident intent of the body as written,
shown here on a return confirm; but the duplicate `const remarks`
declaration is an early SyntaxError, the page dies at load with an
uncaught exception, and no run of `confirmEdit` ever handles a
response. -/
theorem confirmEdit_response_bug :
    adminScriptLoads = false ∧
    (confirmEdit ⟨some ⟨1, "n", none, none, none, none, none⟩, "return", [], true⟩
        ⟨"", "", "", "", "", "", "", "", ""⟩ (some ⟨true, none⟩)).1.currentDevice = none ∧
    (confirmEdit ⟨some ⟨1, "n", none, none, none, none, none⟩, "return", [], true⟩
        ⟨"", "", "", "", "", "", "", "", ""⟩ (some ⟨true, none⟩)).2.toasts = ["操作成功"] ∧
    (confirmEdit ⟨some ⟨1, "n", none, none, none, none, none⟩, "return", [], true⟩
        ⟨"", "", "", "", "", "", "", "", ""⟩ (some ⟨true, none⟩)).2.reloaded = true ∧
    (confirmEdit ⟨some ⟨1, "n", none, none, none, none, none⟩, "return", [], true⟩
        ⟨"", "", "", "", "", "", "", "", ""⟩ (some ⟨false, some ""⟩)).2.toasts = ["操作失败"] ∧
    (confirmEdit ⟨some ⟨1, "n", none, none, none, none, none⟩, "return", [], true⟩
        ⟨"", "", "", "", "", "", "", "", ""⟩ none).2.toasts = ["网络错误"] := by
  refine ⟨by decide, by decide, by decide, by decide, by decide, by decide⟩

/-- C3 (code bug): blocking a borrow or transfer confirm on an empty
trimmed required input, with a toast and no request, is what the body
as written would do; but `confirmEdit` is never defined at runtime —
the script fails with the early SyntaxError — so the validate-then-
return path is not a behavior of the program. -/
theorem confirmEdit_validation_bug :
    adminScriptLoads = false ∧
    confirmEdit ⟨some ⟨1, "n", none, none, none, none, none⟩, "borrow", [], true⟩
        ⟨" ", "1", "", "", "", "", "", "", ""⟩ none
      = (⟨some ⟨1, "n", none, none, none, none, none⟩, "borrow", [], true⟩,
        ⟨[], ["请选择借用人"], false⟩) ∧
    confirmEdit ⟨some ⟨1, "n", none, none, none, none, none⟩, "transfer", [], true⟩
        ⟨"", "", "", " ", "", "", "", "", ""⟩ none
      = (⟨some ⟨1, "n", none, none, none, none, none⟩, "transfer", [], true⟩,
        ⟨[], ["请选择新借用人"], false⟩) := by
  refine ⟨by decide, by decide, by decide⟩

/-- C9 (code bug): overwriting the session and showing the modal on a
matching id — and leaving the state untouched on a miss — is what the
opener bodies as written would do; but the openers and the session
globals live in the same script that fails to parse, so a
modal-opening call throws a ReferenceError and no session state or
modal ever exists. -/
theorem modal_open_bug :
    adminScriptLoads = false ∧
    (showBorrowModal [⟨2, "n", none, none, none, none, none⟩] ⟨none, "", [], false⟩ 2
        (some [])).currentDevice = some ⟨2, "n", none, none, none, none, none⟩ ∧
    (showBorrowModal [⟨2, "n", none, none, none, none, none⟩] ⟨none, "", [], false⟩ 2
        (some [])).currentEditType = "borrow" ∧
    (showBorrowModal [⟨2, "n", none, none, none, none, none⟩] ⟨none, "", [], false⟩ 2
        (some [])).modalShown = true ∧
    (showEditFieldModal [⟨2, "n", none, none, none, none, none⟩]
        ⟨some ⟨2, "n", none, none, none, none, none⟩, "edit", [], true⟩ 2
        "status").currentEditType = "field_status" ∧
    showEditModal [⟨2, "n", none, none, none, none, none⟩] ⟨none, "", [], false⟩ 99
      = ⟨none, "", [], false⟩ := by
  refine ⟨by decide, by decide, by decide, by decide, by decide, by decide⟩

/-- C10 (code bug): returning silently when no session is active is
what the guard of the body as written would do; but `confirmEdit` is
never defined at runtime — the script fails with the early
SyntaxError — so the call itself throws a ReferenceError and the
claimed no-op run cannot occur. -/
theorem confirmEdit_noop_bug :
    adminScriptLoads = false ∧
    confirmEdit ⟨none, "", [], false⟩ ⟨"", "", "", "", "", "", "", "", ""⟩ none
      = (⟨none, "", [], false⟩, ⟨[], [], false⟩) := by
  refine ⟨by decide, by decide⟩

/-- C5: an 11-character input comes back with exactly the characters at
1-based positions 4-7 replaced by four asterisks — the first three and
the last four characters are preserved — and every other input (null,
empty, or of a different length) passes through unchanged. -/
theorem maskPhone_spec (p : Option (List Char)) :
    (∀ s, p = some s → s.length = 11 →
      maskPhone p = some (s.take 3 ++ ['*', '*', '*', '*'] ++ s.drop 7) ∧
      (s.take 3 ++ ['*', '*', '*', '*'] ++ s.drop 7).take 3 = s.take 3 ∧
      (s.take 3 ++ ['*', '*', '*', '*'] ++ s.drop 7).drop 7 = s.drop 7 ∧
      ((s.take 3 ++ ['*', '*', '*', '*'] ++ s.drop 7).drop 3).take 4 = ['*', '*', '*', '*'] ∧
      (s.take 3 ++ ['*', '*', '*', '*'] ++ s.drop 7).length = 11) ∧
    (p = none → maskPhone p = none) ∧
    (∀ s, p = some s → s.length ≠ 11 → maskPhone p = some s) := by
  refine ⟨?_, ?_, ?_⟩
  · intro s hp h11
    subst hp
    have hne : s ≠ [] := by
      intro h
      rw [h] at h11
      simp at h11
    have ha : (s.take 3).length = 3 := by
      rw [List.length_take, h11]
      decide
    have hc : (s.drop 7).length = 4 := by
      rw [List.length_drop, h11]
    have h7 : (s.take 3 ++ ['*', '*', '*', '*']).length = 7 := by
      simp [ha]
    refine ⟨?_, ?_, ?_, ?_, ?_⟩
    · simp [maskPhone, h11, hne]
    · rw [List.append_assoc, List.take_left' ha]
    · rw [List.drop_left' h7]
    · rw [List.append_assoc, List.drop_left' ha,
        List.take_left' (show (['*', '*', '*', '*'] : List Char).length = 4 from rfl)]
    · simp [List.length_append, ha, hc]
  · intro hp
    subst hp
    rfl
  · intro s hp h11
    subst hp
    simp [maskPhone, h11]

/-- Witness for the maskPhone theorem at a concrete 11-digit number. -/
theorem maskPhone_spec_witness :
    maskPhone (some ("13812345678".data)) =
      some ("13812345678".data.take 3 ++ ['*', '*', '*', '*'] ++ "13812345678".data.drop 7) :=
  ((maskPhone_spec (some ("13812345678".data))).1 _ rfl (by decide)).1

/-- Decimal rendering of a natural never produces the empty string. -/
theorem natDigits_ne_nil (n : Nat) : natDigits n ≠ [] := by
  unfold natDigits natDigitsAux
  by_cases h : n < 10 <;> simp [h]

/-- Stringified JSON values are never the empty string, so the stored
item is truthy and `storage.get` reaches the parse. -/
theorem jsonStringifyL_ne_nil (v : JsonV) : jsonStringifyL v ≠ [] := by
  cases v with
  | jnull => simp [jsonStringifyL]
  | jbool b => cases b <;> simp [jsonStringifyL]
  | jnum n =>
    simp only [jsonStringifyL, intDigits]
    split_ifs
    · simp
    · exact natDigits_ne_nil _
  | jstr s => simp [jsonStringifyL, jstrLit]
  | jarr xs => simp [jsonStringifyL]
  | jobj fs => simp [jsonStringifyL]

/-- C7: under the storage wrapper, a get after a successful set of a
value whose JSON encoding round-trips returns that value; a get of an
absent key returns the default; a stored item the parse rejects is
swallowed into the default; and a throwing underlying `setItem` or
`removeItem` is swallowed, leaving the store unchanged (every wrapper
operation is a total function — nothing is thrown to the caller). -/
theorem storage_spec (st : Store) (k : String) (v : JsonV) (d : JsonV) :
    (jsonParse (String.mk (jsonStringifyL v)) = some v →
      jsGet (jsSet st k v true) k d = v) ∧
    (storeLookup st k = none → jsGet st k d = d) ∧
    (∀ item, storeLookup st k = some item → jsonParse item = none → jsGet st k d = d) ∧
    (jsSet st k v false = st) ∧
    (jsRemove st k false = st) := by
  refine ⟨?_, ?_, ?_, rfl, rfl⟩
  · intro hrt
    have hlk : storeLookup (jsSet st k v true) k = some (String.mk (jsonStringifyL v)) := by
      simp [jsSet, storeLookup, List.find?]
    have hne : String.mk (jsonStringifyL v) ≠ "" := by
      intro h
      exact jsonStringifyL_ne_nil v (congrArg String.data h)
    simp [jsGet, hlk, hne, hrt]
  · intro h
    simp [jsGet, h]
  · intro item hi hp
    by_cases he : item = "" <;> simp [jsGet, hi, he, hp]

/-- Witness for the storage theorem: the number 42 survives a set/get
round trip through the encoder and parser. -/
theorem storage_spec_witness :
    jsGet (jsSet [] "k" (JsonV.jnum 42) true) "k" JsonV.jnull = JsonV.jnum 42 :=
  (storage_spec [] "k" (JsonV.jnum 42) JsonV.jnull).1 rfl

/-- On a value that is present, no validator throws, and the inner rule
loop returns exactly the first failing message. -/
theorem runRules_eq_firstFailing (s : String) (rs : List Rule) :
    runRules (some s) rs = Except.ok (firstFailingMessage (some s) rs) := by
  induction rs with
  | nil => rfl
  | cons r rs ih =>
    obtain ⟨res, hres⟩ : ∃ res, applyRule (some s) r = Except.ok res := by
      cases r with
      | fn f => exact ⟨f (some s), rfl⟩
      | req m => exact ⟨_, rfl⟩
      | vreq m => exact ⟨_, rfl⟩
      | vphone m => exact ⟨_, rfl⟩
      | vmin len m =>
        simp only [applyRule, vMinLength]
        split_ifs <;> exact ⟨_, rfl⟩
      | vmax len m =>
        simp only [applyRule, vMaxLength]
        split_ifs <;> exact ⟨_, rfl⟩
    cases res with
    | jtrue => simp [runRules, firstFailingMessage, hres, ih]
    | jval m => simp [runRules, firstFailingMessage, hres]

/-- The outer loop of `validateForm` collects, in field order, one
entry per field whose first failing rule exists, provided every field
of the rules map is present in the form data. -/
theorem validateGo_eq (formData : List (String × String)) :
    ∀ (rules : List (String × List Rule)),
    (∀ p ∈ rules, (lookupField formData p.1).isSome = true) →
    validateGo formData rules = Except.ok (rules.filterMap (fun p =>
      (firstFailingMessage (lookupField formData p.1) p.2).map (fun m => (p.1, m)))) := by
  intro rules
  induction rules with
  | nil => intro _; rfl
  | cons p rest ih =>
    intro hp
    obtain ⟨f, rs⟩ := p
    obtain ⟨s, hs⟩ : ∃ s, lookupField formData f = some s := by
      have h1 := hp (f, rs) (List.mem_cons_self _ _)
      cases h : lookupField formData f with
      | some s => exact ⟨s, rfl⟩
      | none => rw [h] at h1; simp at h1
    have hrest := ih (fun q hq => hp q (List.mem_cons_of_mem _ hq))
    cases hm : firstFailingMessage (some s) rs with
    | none =>
      simp only [validateGo, hs, runRules_eq_firstFailing, hm, hrest, List.filterMap_cons]
      rfl
    | some msg =>
      simp only [validateGo, hs, runRules_eq_firstFailing, hm, hrest, List.filterMap_cons,
        Except.map]
      rfl

/-- C4 counterexample: with an empty form-data object and a single
`minLength` array rule, `validateForm` throws (reading `.length` of
`undefined`) instead of returning a result object. -/
theorem validateForm_missing_field_counterexample :
    validateForm [] [("a", [Rule.vmin 2 none])] = Except.error JsErr.typeError := rfl

/-- C4 (amended): for every form-data object that supplies a value for
each field of the rules map (a missing field makes a `minLength` or
`maxLength` rule throw a TypeError instead), `validateForm` evaluates
each field's ordered rule list, stops at the first rule whose result
is not `true` and records that rule's message for the field, and
returns `isValid` with the collected errors, `isValid` holding exactly
when no field recorded an error. -/
theorem validateForm_spec (formData : List (String × String))
    (rules : List (String × List Rule))
    (hpresent : ∀ p ∈ rules, (lookupField formData p.1).isSome = true) :
    ∃ errs,
      validateForm formData rules = Except.ok (errs.isEmpty, errs) ∧
      errs = rules.filterMap (fun p =>
        (firstFailingMessage (lookupField formData p.1) p.2).map (fun m => (p.1, m))) ∧
      (errs.isEmpty = true ↔
        ∀ p ∈ rules, firstFailingMessage (lookupField formData p.1) p.2 = none) := by
  refine ⟨_, ?_, rfl, ?_⟩
  · rw [validateForm, validateGo_eq formData rules hpresent]
    rfl
  · rw [List.isEmpty_iff, List.filterMap_eq_nil_iff]
    constructor
    · intro h p hp
      have := h p hp
      simpa using this
    · intro h p hp
      simp [h p hp]

/-- Witness for the validateForm theorem: a one-field form whose
required rule fails on the empty string. -/
theorem validateForm_spec_witness :
    ∃ errs,
      validateForm [("a", "")] [("a", [Rule.req "need a"])] = Except.ok (errs.isEmpty, errs) ∧
      errs = ([("a", [Rule.req "need a"])]).filterMap (fun p =>
        (firstFailingMessage (lookupField [("a", "")] p.1) p.2).map (fun m => (p.1, m))) ∧
      (errs.isEmpty = true ↔ ∀ p ∈ [("a", [Rule.req "need a"])],
        firstFailingMessage (lookupField [("a", "")] p.1) p.2 = none) :=
  validateForm_spec _ _ (by
    intro p hp
    rw [List.mem_singleton] at hp
    subst hp
    rfl)

/-- Every firing time of a debounce run is either the pending timer or
`wait` after one of the calls. -/
theorem debounceRun_mem (wait : Nat) :
    ∀ (calls : List Nat) (pending : Option Nat) (x : Nat),
    x ∈ debounceRun wait calls pending →
    (∃ f, pending = some f ∧ x = f) ∨ (∃ t, t ∈ calls ∧ x = t + wait) := by
  intro calls
  induction calls with
  | nil =>
    intro pending x hx
    cases pending with
    | none => simp [debounceRun] at hx
    | some f =>
      simp [debounceRun] at hx
      exact Or.inl ⟨f, rfl, hx⟩
  | cons t rest ih =>
    intro pending x hx
    have htail : x ∈ debounceRun wait rest (some (t + wait)) →
        (∃ u, u ∈ t :: rest ∧ x = u + wait) := by
      intro hx'
      rcases ih (some (t + wait)) x hx' with ⟨g, hg, rfl⟩ | ⟨u, hu, rfl⟩
      · exact ⟨t, List.mem_cons_self _ _, (Option.some.inj hg).symm⟩
      · exact ⟨u, List.mem_cons_of_mem _ hu, rfl⟩
    cases pending with
    | none =>
      simp only [debounceRun] at hx
      exact Or.inr (htail hx)
    | some f =>
      simp only [debounceRun] at hx
      by_cases hft : f ≤ t
      · rw [if_pos hft] at hx
        rcases List.mem_cons.mp hx with hxf | hx'
        · exact Or.inl ⟨f, rfl, hxf⟩
        · exact Or.inr (htail hx')
      · rw [if_neg hft] at hx
        exact Or.inr (htail hx)

/-- Consecutive firing times of a debounce run over strictly increasing
call times are at least `wait` apart. -/
theorem debounceRun_chain (wait : Nat) :
    ∀ (calls : List Nat) (pending : Option Nat),
    List.Pairwise (· < ·) calls →
    List.Chain' (fun a b => a + wait ≤ b) (debounceRun wait calls pending) := by
  intro calls
  induction calls with
  | nil =>
    intro pending _
    cases pending <;> simp [debounceRun]
  | cons t rest ih =>
    intro pending hp
    have hp' : List.Pairwise (· < ·) rest := (List.pairwise_cons.mp hp).2
    have hhead : ∀ u ∈ rest, t < u := (List.pairwise_cons.mp hp).1
    cases pending with
    | none =>
      simp only [debounceRun]
      exact ih (some (t + wait)) hp'
    | some f =>
      simp only [debounceRun]
      by_cases hft : f ≤ t
      · rw [if_pos hft]
        rw [List.chain'_cons']
        refine ⟨?_, ih (some (t + wait)) hp'⟩
        intro b hb
        have hbmem := List.mem_of_mem_head? hb
        rcases debounceRun_mem wait rest (some (t + wait)) b hbmem with
          ⟨g, hg, hbg⟩ | ⟨u, hu, hbu⟩
        · have hg' : t + wait = g := Option.some.inj hg
          omega
        · have := hhead u hu
          omega
      · rw [if_neg hft]
        exact ih (some (t + wait)) hp'

/-- Every firing time of a throttle run is one of the call times. -/
theorem throttleRun_mem (limit : Nat) :
    ∀ (calls : List Nat) (clearAt : Option Nat) (x : Nat),
    x ∈ throttleRun limit calls clearAt → x ∈ calls := by
  intro calls
  induction calls with
  | nil =>
    intro clearAt x hx
    simp [throttleRun] at hx
  | cons t rest ih =>
    intro clearAt x hx
    cases clearAt with
    | none =>
      simp only [throttleRun] at hx
      rcases List.mem_cons.mp hx with rfl | hx'
      · exact List.mem_cons_self _ _
      · exact List.mem_cons_of_mem _ (ih _ x hx')
    | some c =>
      simp only [throttleRun] at hx
      by_cases htc : t < c
      · rw [if_pos htc] at hx
        exact List.mem_cons_of_mem _ (ih _ x hx)
      · rw [if_neg htc] at hx
        rcases List.mem_cons.mp hx with rfl | hx'
        · exact List.mem_cons_self _ _
        · exact List.mem_cons_of_mem _ (ih _ x hx')

/-- Firing times of a throttle run started with a pending flag reset
time are never earlier than that reset time. -/
theorem throttleRun_lb (limit : Nat) :
    ∀ (calls : List Nat) (c : Nat) (x : Nat),
    x ∈ throttleRun limit calls (some c) → c ≤ x := by
  intro calls
  induction calls with
  | nil =>
    intro c x hx
    simp [throttleRun] at hx
  | cons t rest ih =>
    intro c x hx
    simp only [throttleRun] at hx
    by_cases htc : t < c
    · rw [if_pos htc] at hx
      exact ih c x hx
    · rw [if_neg htc] at hx
      rcases List.mem_cons.mp hx with rfl | hx'
      · omega
      · have := ih (x := x) (t + limit) hx'
        omega

/-- Consecutive firing times of a throttle run are at least `limit`
apart. -/
theorem throttleRun_chain (limit : Nat) :
    ∀ (calls : List Nat) (clearAt : Option Nat),
    List.Chain' (fun a b => a + limit ≤ b) (throttleRun limit calls clearAt) := by
  intro calls
  induction calls with
  | nil =>
    intro clearAt
    simp [throttleRun]
  | cons t rest ih =>
    intro clearAt
    have hcons : List.Chain' (fun a b => a + limit ≤ b)
        (t :: throttleRun limit rest (some (t + limit))) := by
      rw [List.chain'_cons']
      refine ⟨?_, ih (some (t + limit))⟩
      intro b hb
      exact throttleRun_lb limit rest (t + limit) b (List.mem_of_mem_head? hb)
    cases clearAt with
    | none =>
      simpa only [throttleRun] using hcons
    | some c =>
      simp only [throttleRun]
      by_cases htc : t < c
      · rw [if_pos htc]
        exact ih (some c)
      · rw [if_neg htc]
        exact hcons

/-- C8: over any strictly increasing sequence of call times, the
debounce wrapper fires only `wait` after some call and consecutive
firings are at least `wait` apart, and the throttle wrapper fires only
at call times with consecutive firings at least `limit` apart — so
each wrapper invokes the wrapped function at most once per window. -/
theorem debounce_throttle_once_per_window (wait limit : Nat) (calls : List Nat)
    (hsorted : List.Pairwise (· < ·) calls) :
    List.Chain' (fun a b => a + wait ≤ b) (debounceRun wait calls none) ∧
    List.Chain' (fun a b => a + limit ≤ b) (throttleRun limit calls none) ∧
    (∀ x ∈ debounceRun wait calls none, ∃ t, t ∈ calls ∧ x = t + wait) ∧
    (∀ x ∈ throttleRun limit calls none, x ∈ calls) := by
  refine ⟨debounceRun_chain wait calls none hsorted, throttleRun_chain limit calls none,
    ?_, fun x hx => throttleRun_mem limit calls none x hx⟩
  intro x hx
  rcases debounceRun_mem wait calls none x hx with ⟨f, hf, _⟩ | h
  · exact absurd hf (by simp)
  · exact h

/-- Witness for the debounce/throttle theorem at a concrete burst of
calls. -/
theorem debounce_throttle_once_per_window_witness :
    List.Chain' (fun a b => a + 5 ≤ b) (debounceRun 5 [0, 1, 10] none) ∧
    List.Chain' (fun a b => a + 5 ≤ b) (throttleRun 5 [0, 1, 10] none) ∧
    (∀ x ∈ debounceRun 5 [0, 1, 10] none, ∃ t, t ∈ [0, 1, 10] ∧ x = t + 5) ∧
    (∀ x ∈ throttleRun 5 [0, 1, 10] none, x ∈ [0, 1, 10]) :=
  debounce_throttle_once_per_window 5 5 [0, 1, 10] (by decide)

/-! ### formatDate lemmas -/

/-- Digit characters are digits. -/
theorem digitChar_isDigit (n : Nat) (h : n < 10) : (digitChar n).isDigit = true := by
  have hall : ∀ m, m < 10 → (digitChar m).isDigit = true := by decide
  exact hall n h

/-- Every character of the fuel-driven decimal rendering is a digit. -/
theorem natDigitsAux_digits : ∀ (fuel n : Nat), ∀ c ∈ natDigitsAux fuel n, c.isDigit = true := by
  intro fuel
  induction fuel with
  | zero => intro n c hc; simp [natDigitsAux] at hc
  | succ f ih =>
    intro n c hc
    simp only [natDigitsAux] at hc
    by_cases h : n < 10
    · rw [if_pos h] at hc
      simp only [List.mem_singleton] at hc
      subst hc
      exact digitChar_isDigit n h
    · rw [if_neg h] at hc
      rcases List.mem_append.mp hc with h1 | h2
      · exact ih _ c h1
      · simp only [List.mem_singleton] at h2
        subst h2
        exact digitChar_isDigit _ (Nat.mod_lt _ (by omega))

/-- Every character of the decimal rendering of a natural is a digit. -/
theorem natDigits_digits (n : Nat) : ∀ c ∈ natDigits n, c.isDigit = true :=
  natDigitsAux_digits _ _

/-- Every character of a zero-padded component is a digit. -/
theorem pad2_digits (n : Nat) : ∀ c ∈ pad2 n, c.isDigit = true := by
  intro c hc
  simp only [pad2] at hc
  split at hc
  · rcases List.mem_append.mp hc with h1 | h2
    · have h3 := List.eq_of_mem_replicate h1
      subst h3
      decide
    · exact natDigits_digits n c h2
  · exact natDigits_digits n c hc

/-- Zero-padded components are nonempty. -/
theorem pad2_ne_nil (n : Nat) : pad2 n ≠ [] := by
  simp only [pad2]
  split
  · simp [natDigits_ne_nil n]
  · exact natDigits_ne_nil n

/-- A repeated-character token is not a prefix of a string starting
with a different character. -/
theorem replicate_head_not_isPrefixOf (ch c : Char) (hne : (ch == c) = false) (j : Nat)
    (hj : 1 ≤ j) (l : List Char) :
    (List.replicate j ch).isPrefixOf (c :: l) = false := by
  obtain ⟨j', rfl⟩ : ∃ j', j = j' + 1 := ⟨j - 1, by omega⟩
  rw [List.replicate_succ, List.isPrefixOf_cons₂, hne, Bool.false_and]

/-- A token of non-digit characters is not a prefix of a string
starting with a digit. -/
theorem digit_head_not_isPrefixOf (ch : Char) (hch : ch.isDigit = false) (j : Nat) (hj : 1 ≤ j)
    (c : Char) (hc : c.isDigit = true) (l : List Char) :
    (List.replicate j ch).isPrefixOf (c :: l) = false := by
  apply replicate_head_not_isPrefixOf ch c ?_ j hj
  rw [beq_eq_false_iff_ne]
  intro h
  rw [h, hc] at hch
  exact Bool.noConfusion hch

/-- A replace whose pattern does not start here steps over the head
character. -/
theorem replaceFirst_cons_not (pat rep : List Char) (c : Char) (rest : List Char)
    (h : pat.isPrefixOf (c :: rest) = false) :
    replaceFirst pat rep (c :: rest) = c :: replaceFirst pat rep rest := by
  rw [replaceFirst, if_neg (by simp [h])]

/-- A pattern is a prefix of itself followed by anything. -/
theorem isPrefixOf_append_self (pat X : List Char) : pat.isPrefixOf (pat ++ X) = true := by
  have h : pat <+: pat ++ X := ⟨X, rfl⟩
  exact List.isPrefixOf_iff_prefix.mpr h

/-- A replace fires at an exact pattern prefix. -/
theorem replaceFirst_prefix_fire (pat rep X : List Char) (hpat : pat ≠ []) :
    replaceFirst pat rep (pat ++ X) = rep ++ X := by
  obtain ⟨p, ps, rfl⟩ := List.exists_cons_of_ne_nil hpat
  have hpf : (p :: ps).isPrefixOf (p :: (ps ++ X)) = true := isPrefixOf_append_self (p :: ps) X
  rw [List.cons_append, replaceFirst, if_pos hpf]
  congr 1
  rw [List.length_cons, List.drop_succ_cons, List.drop_left]

/-- Occurrence counts only grow towards the front. -/
theorem countOcc_cons_le (pat : List Char) (c : Char) (rest : List Char) :
    countOcc pat rest ≤ countOcc pat (c :: rest) := by
  rw [countOcc]
  exact Nat.le_add_left _ _

/-- Occurrence counts of a suffix never exceed those of the whole. -/
theorem countOcc_append_left_le (pat w t : List Char) :
    countOcc pat t ≤ countOcc pat (w ++ t) := by
  induction w with
  | nil => simp
  | cons c w' ih =>
    rw [List.cons_append]
    exact le_trans ih (countOcc_cons_le pat c (w' ++ t))

/-- Occurrence counts survive dropping a prefix. -/
theorem countOcc_drop_le (pat : List Char) : ∀ (n : Nat) (s : List Char),
    countOcc pat (s.drop n) ≤ countOcc pat s := by
  intro n
  induction n with
  | zero => intro s; simp
  | succ n' ih =>
    intro s
    cases s with
    | nil => simp
    | cons c rest =>
      rw [List.drop_succ_cons]
      exact le_trans (ih rest) (countOcc_cons_le pat c rest)

/-- A string headed by the pattern has strictly more occurrences than
its tail part. -/
theorem countOcc_token_prefix_ge (pat t : List Char) (hpat : pat ≠ []) :
    countOcc pat t + 1 ≤ countOcc pat (pat ++ t) := by
  obtain ⟨p, ps, rfl⟩ := List.exists_cons_of_ne_nil hpat
  have hpf : (p :: ps).isPrefixOf (p :: (ps ++ t)) = true := isPrefixOf_append_self (p :: ps) t
  rw [List.cons_append, countOcc, if_pos hpf]
  have h := countOcc_append_left_le (p :: ps) ps t
  omega

/-- A replace with no occurrence of its pattern is the identity. -/
theorem replaceFirst_no_occ (pat rep : List Char) : ∀ (s : List Char),
    countOcc pat s = 0 → replaceFirst pat rep s = s := by
  intro s
  induction s with
  | nil => intro _; rfl
  | cons c rest ih =>
    intro h
    rw [countOcc] at h
    by_cases hp : pat.isPrefixOf (c :: rest) = true
    · rw [if_pos hp] at h
      exact absurd h (by omega)
    · simp only [Bool.not_eq_true] at hp
      rw [if_neg (by simp [hp]), Nat.zero_add] at h
      rw [replaceFirst_cons_not pat rep c rest hp, ih h]

/-- Occurrences of a non-digit token are unaffected by an all-digit
block in front. -/
theorem countOcc_digits_append (ch : Char) (hch : ch.isDigit = false) (j : Nat) (hj : 1 ≤ j)
    (w v : List Char) (hw : ∀ x ∈ w, x.isDigit = true) :
    countOcc (List.replicate j ch) (w ++ v) = countOcc (List.replicate j ch) v := by
  induction w with
  | nil => simp
  | cons d w' ih =>
    have hd : d.isDigit = true := hw d (List.mem_cons_self _ _)
    rw [List.cons_append, countOcc,
      if_neg (by simp [digit_head_not_isPrefixOf ch hch j hj d hd (w' ++ v)])]
    rw [ih (fun x hx => hw x (List.mem_cons_of_mem _ hx))]
    omega

/-- A replace of a non-digit token steps over an all-digit block. -/
theorem replaceFirst_digits_append (ch : Char) (hch : ch.isDigit = false) (j : Nat) (hj : 1 ≤ j)
    (rep w v : List Char) (hw : ∀ x ∈ w, x.isDigit = true) :
    replaceFirst (List.replicate j ch) rep (w ++ v) =
      w ++ replaceFirst (List.replicate j ch) rep v := by
  induction w with
  | nil => simp
  | cons d w' ih =>
    have hd : d.isDigit = true := hw d (List.mem_cons_self _ _)
    rw [List.cons_append,
      replaceFirst_cons_not _ _ _ _ (digit_head_not_isPrefixOf ch hch j hj d hd (w' ++ v)),
      ih (fun x hx => hw x (List.mem_cons_of_mem _ hx)), List.cons_append]

/-- A replace of one repeated-character token steps over a block of a
different repeated character. -/
theorem replaceFirst_foreign_append (ch ch2 : Char) (hne : (ch == ch2) = false) (j k : Nat)
    (hj : 1 ≤ j) (rep v : List Char) :
    replaceFirst (List.replicate j ch) rep (List.replicate k ch2 ++ v) =
      List.replicate k ch2 ++ replaceFirst (List.replicate j ch) rep v := by
  induction k with
  | zero => simp
  | succ k' ih =>
    rw [List.replicate_succ, List.cons_append,
      replaceFirst_cons_not _ _ _ _ (replicate_head_not_isPrefixOf ch ch2 hne j hj _),
      ih, List.cons_append]

/-- Replacing a different token (by an all-digit value) cannot create a
prefix occurrence of a repeated-character token. -/
theorem not_isPrefixOf_replaceFirst (ch chp : Char) (hne : (ch == chp) = false)
    (hch : ch.isDigit = false) (kp : Nat) (hkp : 1 ≤ kp) (rep : List Char)
    (hrep : ∀ x ∈ rep, x.isDigit = true) (hrepne : rep ≠ []) :
    ∀ (s : List Char) (j : Nat), 1 ≤ j →
    (List.replicate j ch).isPrefixOf s = false →
    (List.replicate j ch).isPrefixOf (replaceFirst (List.replicate kp chp) rep s) = false := by
  intro s
  induction s with
  | nil =>
    intro j hj h
    simpa [replaceFirst] using h
  | cons c rest ih =>
    intro j hj h
    by_cases hp : (List.replicate kp chp).isPrefixOf (c :: rest) = true
    · rw [replaceFirst, if_pos hp]
      obtain ⟨r, rep', rfl⟩ := List.exists_cons_of_ne_nil hrepne
      rw [List.cons_append]
      exact digit_head_not_isPrefixOf ch hch j hj r (hrep r (List.mem_cons_self _ _)) _
    · simp only [Bool.not_eq_true] at hp
      rw [replaceFirst_cons_not _ _ _ _ hp]
      obtain ⟨j', rfl⟩ : ∃ j', j = j' + 1 := ⟨j - 1, by omega⟩
      rw [List.replicate_succ, List.isPrefixOf_cons₂] at h ⊢
      by_cases hcc : (ch == c) = true
      · rw [hcc, Bool.true_and] at h ⊢
        cases j' with
        | zero => simp at h
        | succ j'' => exact ih (j'' + 1) (by omega) h
      · simp only [Bool.not_eq_true] at hcc
        rw [hcc, Bool.false_and]

/-- Transfer of a blocked token prefix over a replace of a different
token applied to the tail. -/
theorem cons_block_transfer (ch chp : Char) (hne : (ch == chp) = false)
    (hch : ch.isDigit = false) (kp : Nat) (hkp : 1 ≤ kp) (rep : List Char)
    (hrep : ∀ x ∈ rep, x.isDigit = true) (hrepne : rep ≠ []) (c : Char) (rest : List Char)
    (j : Nat) (hj : 1 ≤ j)
    (h : (List.replicate j ch).isPrefixOf (c :: rest) = false) :
    (List.replicate j ch).isPrefixOf
      (c :: replaceFirst (List.replicate kp chp) rep rest) = false := by
  obtain ⟨j', rfl⟩ : ∃ j', j = j' + 1 := ⟨j - 1, by omega⟩
  rw [List.replicate_succ, List.isPrefixOf_cons₂] at h ⊢
  by_cases hcc : (ch == c) = true
  · rw [hcc, Bool.true_and] at h ⊢
    cases j' with
    | zero => simp at h
    | succ j'' =>
      exact not_isPrefixOf_replaceFirst ch chp hne hch kp hkp rep hrep hrepne rest (j'' + 1)
        (by omega) h
  · simp only [Bool.not_eq_true] at hcc
    rw [hcc, Bool.false_and]

/-- Replacing a different token (by an all-digit value) preserves the
absence of a repeated-character token. -/
theorem countOcc_replaceFirst_zero (ch chp : Char) (hne : (ch == chp) = false)
    (hch : ch.isDigit = false) (j kp : Nat) (hj : 1 ≤ j) (hkp : 1 ≤ kp) (rep : List Char)
    (hrep : ∀ x ∈ rep, x.isDigit = true) (hrepne : rep ≠ []) :
    ∀ (s : List Char), countOcc (List.replicate j ch) s = 0 →
    countOcc (List.replicate j ch) (replaceFirst (List.replicate kp chp) rep s) = 0 := by
  intro s
  induction s with
  | nil => intro h; simpa [replaceFirst] using h
  | cons c rest ih =>
    intro h
    rw [countOcc] at h
    have h1 : (List.replicate j ch).isPrefixOf (c :: rest) = false := by
      by_cases hp : (List.replicate j ch).isPrefixOf (c :: rest) = true
      · rw [if_pos hp] at h
        exact absurd h (by omega)
      · simp only [Bool.not_eq_true] at hp
        exact hp
    rw [if_neg (by simp [h1]), Nat.zero_add] at h
    by_cases hp2 : (List.replicate kp chp).isPrefixOf (c :: rest) = true
    · rw [replaceFirst, if_pos hp2]
      rw [countOcc_digits_append ch hch j hj rep _ hrep]
      have hc0 : countOcc (List.replicate j ch) (c :: rest) = 0 := by
        rw [countOcc, if_neg (by simp [h1]), Nat.zero_add]
        exact h
      have hd := countOcc_drop_le (List.replicate j ch) (List.replicate kp chp).length (c :: rest)
      omega
    · simp only [Bool.not_eq_true] at hp2
      rw [replaceFirst_cons_not _ _ _ _ hp2, countOcc,
        if_neg (by
          simp [cons_block_transfer ch chp hne hch kp hkp rep hrep hrepne c rest j hj h1]),
        Nat.zero_add]
      exact ih h

/-- The YYYY replace steps over one foreign character. -/
theorem passY_over (c : Char) (hne : ('Y' == c) = false) (rep X : List Char) :
    replaceFirst tokY rep (c :: X) = c :: replaceFirst tokY rep X :=
  replaceFirst_cons_not tokY rep c X (replicate_head_not_isPrefixOf 'Y' c hne 4 (by omega) X)

/-- The YYYY replace steps over an MM token. -/
theorem passY_tokM (rep v : List Char) :
    replaceFirst tokY rep (tokM ++ v) = tokM ++ replaceFirst tokY rep v :=
  replaceFirst_foreign_append 'Y' 'M' (by decide) 4 2 (by omega) rep v

/-- The YYYY replace steps over a DD token. -/
theorem passY_tokD (rep v : List Char) :
    replaceFirst tokY rep (tokD ++ v) = tokD ++ replaceFirst tokY rep v :=
  replaceFirst_foreign_append 'Y' 'D' (by decide) 4 2 (by omega) rep v

/-- The YYYY replace steps over an HH token. -/
theorem passY_tokH (rep v : List Char) :
    replaceFirst tokY rep (tokH ++ v) = tokH ++ replaceFirst tokY rep v :=
  replaceFirst_foreign_append 'Y' 'H' (by decide) 4 2 (by omega) rep v

/-- The YYYY replace steps over an mm token. -/
theorem passY_tokm (rep v : List Char) :
    replaceFirst tokY rep (tokm ++ v) = tokm ++ replaceFirst tokY rep v :=
  replaceFirst_foreign_append 'Y' 'm' (by decide) 4 2 (by omega) rep v

/-- The MM replace steps over a DD token. -/
theorem passM_tokD (rep v : List Char) :
    replaceFirst tokM rep (tokD ++ v) = tokD ++ replaceFirst tokM rep v :=
  replaceFirst_foreign_append 'M' 'D' (by decide) 2 2 (by omega) rep v

/-- The MM replace steps over an HH token. -/
theorem passM_tokH (rep v : List Char) :
    replaceFirst tokM rep (tokH ++ v) = tokH ++ replaceFirst tokM rep v :=
  replaceFirst_foreign_append 'M' 'H' (by decide) 2 2 (by omega) rep v

/-- The MM replace steps over an mm token. -/
theorem passM_tokm (rep v : List Char) :
    replaceFirst tokM rep (tokm ++ v) = tokm ++ replaceFirst tokM rep v :=
  replaceFirst_foreign_append 'M' 'm' (by decide) 2 2 (by omega) rep v

/-- The DD replace steps over an HH token. -/
theorem passD_tokH (rep v : List Char) :
    replaceFirst tokD rep (tokH ++ v) = tokH ++ replaceFirst tokD rep v :=
  replaceFirst_foreign_append 'D' 'H' (by decide) 2 2 (by omega) rep v

/-- The DD replace steps over an mm token. -/
theorem passD_tokm (rep v : List Char) :
    replaceFirst tokD rep (tokm ++ v) = tokm ++ replaceFirst tokD rep v :=
  replaceFirst_foreign_append 'D' 'm' (by decide) 2 2 (by omega) rep v

/-- The HH replace steps over an mm token. -/
theorem passH_tokm (rep v : List Char) :
    replaceFirst tokH rep (tokm ++ v) = tokm ++ replaceFirst tokH rep v :=
  replaceFirst_foreign_append 'H' 'm' (by decide) 2 2 (by omega) rep v

/-- The MM replace steps over an all-digit block. -/
theorem digits_pass_M (rep w v : List Char) (hw : ∀ x ∈ w, x.isDigit = true) :
    replaceFirst tokM rep (w ++ v) = w ++ replaceFirst tokM rep v :=
  replaceFirst_digits_append 'M' (by decide) 2 (by omega) rep w v hw

/-- The DD replace steps over an all-digit block. -/
theorem digits_pass_D (rep w v : List Char) (hw : ∀ x ∈ w, x.isDigit = true) :
    replaceFirst tokD rep (w ++ v) = w ++ replaceFirst tokD rep v :=
  replaceFirst_digits_append 'D' (by decide) 2 (by omega) rep w v hw

/-- The HH replace steps over an all-digit block. -/
theorem digits_pass_H (rep w v : List Char) (hw : ∀ x ∈ w, x.isDigit = true) :
    replaceFirst tokH rep (w ++ v) = w ++ replaceFirst tokH rep v :=
  replaceFirst_digits_append 'H' (by decide) 2 (by omega) rep w v hw

/-- The mm replace steps over an all-digit block. -/
theorem digits_pass_m (rep w v : List Char) (hw : ∀ x ∈ w, x.isDigit = true) :
    replaceFirst tokm rep (w ++ v) = w ++ replaceFirst tokm rep v :=
  replaceFirst_digits_append 'm' (by decide) 2 (by omega) rep w v hw

/-- The YYYY replace fires at a leading YYYY token. -/
theorem fire_tokY (rep X : List Char) :
    replaceFirst tokY rep (tokY ++ X) = rep ++ X :=
  replaceFirst_prefix_fire tokY rep X (by decide)

/-- The MM replace fires at a leading MM token. -/
theorem fire_tokM (rep X : List Char) :
    replaceFirst tokM rep (tokM ++ X) = rep ++ X :=
  replaceFirst_prefix_fire tokM rep X (by decide)

/-- The DD replace fires at a leading DD token. -/
theorem fire_tokD (rep X : List Char) :
    replaceFirst tokD rep (tokD ++ X) = rep ++ X :=
  replaceFirst_prefix_fire tokD rep X (by decide)

/-- The HH replace fires at a leading HH token. -/
theorem fire_tokH (rep X : List Char) :
    replaceFirst tokH rep (tokH ++ X) = rep ++ X :=
  replaceFirst_prefix_fire tokH rep X (by decide)

/-- The mm replace fires at a leading mm token. -/
theorem fire_tokm (rep X : List Char) :
    replaceFirst tokm rep (tokm ++ X) = rep ++ X :=
  replaceFirst_prefix_fire tokm rep X (by decide)

/-- Core equivalence for `formatDate`: when each of the five tokens
occurs at most once in the format string, the five sequential
first-occurrence replaces coincide with the single left-to-right
rendering pass. -/
theorem formatDateL_renderFormat_aux (d : DateParts) :
    ∀ (n : Nat) (s : List Char), s.length ≤ n →
    countOcc tokY s ≤ 1 → countOcc tokM s ≤ 1 → countOcc tokD s ≤ 1 →
    countOcc tokH s ≤ 1 → countOcc tokm s ≤ 1 →
    formatDateL d s = renderFormat d s := by
  intro n
  induction n with
  | zero =>
    intro s hlen _ _ _ _ _
    have hs : s = [] := List.length_eq_zero.mp (Nat.le_zero.mp hlen)
    subst hs
    simp [formatDateL, replaceFirst, renderFormat]
  | succ m ih =>
    intro s hlen hY hM hD hH hm
    rcases s with _ | ⟨c, rest⟩
    · simp [formatDateL, replaceFirst, renderFormat]
    · by_cases hpY : tokY.isPrefixOf (c :: rest) = true
      · -- the YYYY token fires
        obtain ⟨t, ht⟩ := List.isPrefixOf_iff_prefix.mp hpY
        rw [← ht] at hlen hY hM hD hH hm ⊢
        simp only [formatDateL]
        rw [fire_tokY (natDigits d.year) t,
          digits_pass_M (pad2 d.month) (natDigits d.year) _ (natDigits_digits d.year),
          digits_pass_D (pad2 d.day) (natDigits d.year) _ (natDigits_digits d.year),
          digits_pass_H (pad2 d.hour) (natDigits d.year) _ (natDigits_digits d.year),
          digits_pass_m (pad2 d.minute) (natDigits d.year) _ (natDigits_digits d.year)]
        have hzt : countOcc tokY t = 0 := by
          have h1 := countOcc_token_prefix_ge tokY t (by decide)
          omega
        have hlen' : t.length ≤ m := by
          rw [List.length_append] at hlen
          have h4 : tokY.length = 4 := rfl
          omega
        have hih : formatDateL d t = renderFormat d t :=
          ih t hlen' (by omega)
            (le_trans (countOcc_append_left_le tokM tokY t) hM)
            (le_trans (countOcc_append_left_le tokD tokY t) hD)
            (le_trans (countOcc_append_left_le tokH tokY t) hH)
            (le_trans (countOcc_append_left_le tokm tokY t) hm)
        simp only [formatDateL] at hih
        rw [replaceFirst_no_occ tokY (natDigits d.year) t hzt] at hih
        rw [hih]
        rw [show tokY ++ t = 'Y' :: 'Y' :: 'Y' :: 'Y' :: t from rfl]
        simp only [renderFormat]
        rw [if_pos (show tokY.isPrefixOf ('Y' :: 'Y' :: 'Y' :: 'Y' :: t) = true from
          isPrefixOf_append_self tokY t)]
        simp only [List.drop_succ_cons, List.drop_zero]
      · simp only [Bool.not_eq_true] at hpY
        by_cases hpM : tokM.isPrefixOf (c :: rest) = true
        · -- the MM token fires
          obtain ⟨t, ht⟩ := List.isPrefixOf_iff_prefix.mp hpM
          rw [← ht] at hlen hY hM hD hH hm ⊢
          simp only [formatDateL]
          rw [passY_tokM (natDigits d.year) t,
            fire_tokM (pad2 d.month) (replaceFirst tokY (natDigits d.year) t),
            digits_pass_D (pad2 d.day) (pad2 d.month) _ (pad2_digits d.month),
            digits_pass_H (pad2 d.hour) (pad2 d.month) _ (pad2_digits d.month),
            digits_pass_m (pad2 d.minute) (pad2 d.month) _ (pad2_digits d.month)]
          have hzt : countOcc tokM t = 0 := by
            have h1 := countOcc_token_prefix_ge tokM t (by decide)
            omega
          have hz1 : countOcc tokM (replaceFirst tokY (natDigits d.year) t) = 0 :=
            countOcc_replaceFirst_zero 'M' 'Y' (by decide) (by decide) 2 4 (by omega) (by omega)
              (natDigits d.year) (natDigits_digits d.year) (natDigits_ne_nil d.year) t hzt
          have hlen' : t.length ≤ m := by
            rw [List.length_append] at hlen
            have h2 : tokM.length = 2 := rfl
            omega
          have hih : formatDateL d t = renderFormat d t :=
            ih t hlen' (le_trans (countOcc_append_left_le tokY tokM t) hY) (by omega)
              (le_trans (countOcc_append_left_le tokD tokM t) hD)
              (le_trans (countOcc_append_left_le tokH tokM t) hH)
              (le_trans (countOcc_append_left_le tokm tokM t) hm)
          simp only [formatDateL] at hih
          rw [replaceFirst_no_occ tokM (pad2 d.month) _ hz1] at hih
          rw [hih]
          rw [show tokM ++ t = 'M' :: 'M' :: t from rfl]
          simp only [renderFormat]
          rw [if_neg (by
              simp [show tokY.isPrefixOf ('M' :: 'M' :: t) = false from
                replicate_head_not_isPrefixOf 'Y' 'M' (by decide) 4 (by omega) ('M' :: t)]),
            if_pos (show tokM.isPrefixOf ('M' :: 'M' :: t) = true from
              isPrefixOf_append_self tokM t)]
          simp only [List.drop_succ_cons, List.drop_zero]
        · simp only [Bool.not_eq_true] at hpM
          by_cases hpD : tokD.isPrefixOf (c :: rest) = true
          · -- the DD token fires
            obtain ⟨t, ht⟩ := List.isPrefixOf_iff_prefix.mp hpD
            rw [← ht] at hlen hY hM hD hH hm ⊢
            simp only [formatDateL]
            rw [passY_tokD (natDigits d.year) t,
              passM_tokD (pad2 d.month) (replaceFirst tokY (natDigits d.year) t),
              fire_tokD (pad2 d.day)
                (replaceFirst tokM (pad2 d.month) (replaceFirst tokY (natDigits d.year) t)),
              digits_pass_H (pad2 d.hour) (pad2 d.day) _ (pad2_digits d.day),
              digits_pass_m (pad2 d.minute) (pad2 d.day) _ (pad2_digits d.day)]
            have hzt : countOcc tokD t = 0 := by
              have h1 := countOcc_token_prefix_ge tokD t (by decide)
              omega
            have hz1 : countOcc tokD (replaceFirst tokY (natDigits d.year) t) = 0 :=
              countOcc_replaceFirst_zero 'D' 'Y' (by decide) (by decide) 2 4 (by omega) (by omega)
                (natDigits d.year) (natDigits_digits d.year) (natDigits_ne_nil d.year) t hzt
            have hz2 : countOcc tokD
                (replaceFirst tokM (pad2 d.month) (replaceFirst tokY (natDigits d.year) t)) = 0 :=
              countOcc_replaceFirst_zero 'D' 'M' (by decide) (by decide) 2 2 (by omega) (by omega)
                (pad2 d.month) (pad2_digits d.month) (pad2_ne_nil d.month) _ hz1
            have hlen' : t.length ≤ m := by
              rw [List.length_append] at hlen
              have h2 : tokD.length = 2 := rfl
              omega
            have hih : formatDateL d t = renderFormat d t :=
              ih t hlen' (le_trans (countOcc_append_left_le tokY tokD t) hY)
                (le_trans (countOcc_append_left_le tokM tokD t) hM) (by omega)
                (le_trans (countOcc_append_left_le tokH tokD t) hH)
                (le_trans (countOcc_append_left_le tokm tokD t) hm)
            simp only [formatDateL] at hih
            rw [replaceFirst_no_occ tokD (pad2 d.day) _ hz2] at hih
            rw [hih]
            rw [show tokD ++ t = 'D' :: 'D' :: t from rfl]
            simp only [renderFormat]
            rw [if_neg (by
                simp [show tokY.isPrefixOf ('D' :: 'D' :: t) = false from
                  replicate_head_not_isPrefixOf 'Y' 'D' (by decide) 4 (by omega) ('D' :: t)]),
              if_neg (by
                simp [show tokM.isPrefixOf ('D' :: 'D' :: t) = false from
                  replicate_head_not_isPrefixOf 'M' 'D' (by decide) 2 (by omega) ('D' :: t)]),
              if_pos (show tokD.isPrefixOf ('D' :: 'D' :: t) = true from
                isPrefixOf_append_self tokD t)]
            simp only [List.drop_succ_cons, List.drop_zero]
          · simp only [Bool.not_eq_true] at hpD
            by_cases hpH : tokH.isPrefixOf (c :: rest) = true
            · -- the HH token fires
              obtain ⟨t, ht⟩ := List.isPrefixOf_iff_prefix.mp hpH
              rw [← ht] at hlen hY hM hD hH hm ⊢
              simp only [formatDateL]
              rw [passY_tokH (natDigits d.year) t,
                passM_tokH (pad2 d.month) (replaceFirst tokY (natDigits d.year) t),
                passD_tokH (pad2 d.day)
                  (replaceFirst tokM (pad2 d.month) (replaceFirst tokY (natDigits d.year) t)),
                fire_tokH (pad2 d.hour)
                  (replaceFirst tokD (pad2 d.day)
                    (replaceFirst tokM (pad2 d.month)
                      (replaceFirst tokY (natDigits d.year) t))),
                digits_pass_m (pad2 d.minute) (pad2 d.hour) _ (pad2_digits d.hour)]
              have hzt : countOcc tokH t = 0 := by
                have h1 := countOcc_token_prefix_ge tokH t (by decide)
                omega
              have hz1 : countOcc tokH (replaceFirst tokY (natDigits d.year) t) = 0 :=
                countOcc_replaceFirst_zero 'H' 'Y' (by decide) (by decide) 2 4 (by omega)
                  (by omega) (natDigits d.year) (natDigits_digits d.year)
                  (natDigits_ne_nil d.year) t hzt
              have hz2 : countOcc tokH
                  (replaceFirst tokM (pad2 d.month)
                    (replaceFirst tokY (natDigits d.year) t)) = 0 :=
                countOcc_replaceFirst_zero 'H' 'M' (by decide) (by decide) 2 2 (by omega)
                  (by omega) (pad2 d.month) (pad2_digits d.month) (pad2_ne_nil d.month) _ hz1
              have hz3 : countOcc tokH
                  (replaceFirst tokD (pad2 d.day)
                    (replaceFirst tokM (pad2 d.month)
                      (replaceFirst tokY (natDigits d.year) t))) = 0 :=
                countOcc_replaceFirst_zero 'H' 'D' (by decide) (by decide) 2 2 (by omega)
                  (by omega) (pad2 d.day) (pad2_digits d.day) (pad2_ne_nil d.day) _ hz2
              have hlen' : t.length ≤ m := by
                rw [List.length_append] at hlen
                have h2 : tokH.length = 2 := rfl
                omega
              have hih : formatDateL d t = renderFormat d t :=
                ih t hlen' (le_trans (countOcc_append_left_le tokY tokH t) hY)
                  (le_trans (countOcc_append_left_le tokM tokH t) hM)
                  (le_trans (countOcc_append_left_le tokD tokH t) hD) (by omega)
                  (le_trans (countOcc_append_left_le tokm tokH t) hm)
              simp only [formatDateL] at hih
              rw [replaceFirst_no_occ tokH (pad2 d.hour) _ hz3] at hih
              rw [hih]
              rw [show tokH ++ t = 'H' :: 'H' :: t from rfl]
              simp only [renderFormat]
              rw [if_neg (by
                  simp [show tokY.isPrefixOf ('H' :: 'H' :: t) = false from
                    replicate_head_not_isPrefixOf 'Y' 'H' (by decide) 4 (by omega) ('H' :: t)]),
                if_neg (by
                  simp [show tokM.isPrefixOf ('H' :: 'H' :: t) = false from
                    replicate_head_not_isPrefixOf 'M' 'H' (by decide) 2 (by omega) ('H' :: t)]),
                if_neg (by
                  simp [show tokD.isPrefixOf ('H' :: 'H' :: t) = false from
                    replicate_head_not_isPrefixOf 'D' 'H' (by decide) 2 (by omega) ('H' :: t)]),
                if_pos (show tokH.isPrefixOf ('H' :: 'H' :: t) = true from
                  isPrefixOf_append_self tokH t)]
              simp only [List.drop_succ_cons, List.drop_zero]
            · simp only [Bool.not_eq_true] at hpH
              by_cases hpm : tokm.isPrefixOf (c :: rest) = true
              · -- the mm token fires
                obtain ⟨t, ht⟩ := List.isPrefixOf_iff_prefix.mp hpm
                rw [← ht] at hlen hY hM hD hH hm ⊢
                simp only [formatDateL]
                rw [passY_tokm (natDigits d.year) t,
                  passM_tokm (pad2 d.month) (replaceFirst tokY (natDigits d.year) t),
                  passD_tokm (pad2 d.day)
                    (replaceFirst tokM (pad2 d.month) (replaceFirst tokY (natDigits d.year) t)),
                  passH_tokm (pad2 d.hour)
                    (replaceFirst tokD (pad2 d.day)
                      (replaceFirst tokM (pad2 d.month)
                        (replaceFirst tokY (natDigits d.year) t))),
                  fire_tokm (pad2 d.minute)
                    (replaceFirst tokH (pad2 d.hour)
                      (replaceFirst tokD (pad2 d.day)
                        (replaceFirst tokM (pad2 d.month)
                          (replaceFirst tokY (natDigits d.year) t))))]
                have hzt : countOcc tokm t = 0 := by
                  have h1 := countOcc_token_prefix_ge tokm t (by decide)
                  omega
                have hz1 : countOcc tokm (replaceFirst tokY (natDigits d.year) t) = 0 :=
                  countOcc_replaceFirst_zero 'm' 'Y' (by decide) (by decide) 2 4 (by omega)
                    (by omega) (natDigits d.year) (natDigits_digits d.year)
                    (natDigits_ne_nil d.year) t hzt
                have hz2 : countOcc tokm
                    (replaceFirst tokM (pad2 d.month)
                      (replaceFirst tokY (natDigits d.year) t)) = 0 :=
                  countOcc_replaceFirst_zero 'm' 'M' (by decide) (by decide) 2 2 (by omega)
                    (by omega) (pad2 d.month) (pad2_digits d.month) (pad2_ne_nil d.month) _ hz1
                have hz3 : countOcc tokm
                    (replaceFirst tokD (pad2 d.day)
                      (replaceFirst tokM (pad2 d.month)
                        (replaceFirst tokY (natDigits d.year) t))) = 0 :=
                  countOcc_replaceFirst_zero 'm' 'D' (by decide) (by decide) 2 2 (by omega)
                    (by omega) (pad2 d.day) (pad2_digits d.day) (pad2_ne_nil d.day) _ hz2
                have hz4 : countOcc tokm
                    (replaceFirst tokH (pad2 d.hour)
                      (replaceFirst tokD (pad2 d.day)
                        (replaceFirst tokM (pad2 d.month)
                          (replaceFirst tokY (natDigits d.year) t)))) = 0 :=
                  countOcc_replaceFirst_zero 'm' 'H' (by decide) (by decide) 2 2 (by omega)
                    (by omega) (pad2 d.hour) (pad2_digits d.hour) (pad2_ne_nil d.hour) _ hz3
                have hlen' : t.length ≤ m := by
                  rw [List.length_append] at hlen
                  have h2 : tokm.length = 2 := rfl
                  omega
                have hih : formatDateL d t = renderFormat d t :=
                  ih t hlen' (le_trans (countOcc_append_left_le tokY tokm t) hY)
                    (le_trans (countOcc_append_left_le tokM tokm t) hM)
                    (le_trans (countOcc_append_left_le tokD tokm t) hD)
                    (le_trans (countOcc_append_left_le tokH tokm t) hH) (by omega)
                simp only [formatDateL] at hih
                rw [replaceFirst_no_occ tokm (pad2 d.minute) _ hz4] at hih
                rw [hih]
                rw [show tokm ++ t = 'm' :: 'm' :: t from rfl]
                simp only [renderFormat]
                rw [if_neg (by
                    simp [show tokY.isPrefixOf ('m' :: 'm' :: t) = false from
                      replicate_head_not_isPrefixOf 'Y' 'm' (by decide) 4 (by omega)
                        ('m' :: t)]),
                  if_neg (by
                    simp [show tokM.isPrefixOf ('m' :: 'm' :: t) = false from
                      replicate_head_not_isPrefixOf 'M' 'm' (by decide) 2 (by omega)
                        ('m' :: t)]),
                  if_neg (by
                    simp [show tokD.isPrefixOf ('m' :: 'm' :: t) = false from
                      replicate_head_not_isPrefixOf 'D' 'm' (by decide) 2 (by omega)
                        ('m' :: t)]),
                  if_neg (by
                    simp [show tokH.isPrefixOf ('m' :: 'm' :: t) = false from
                      replicate_head_not_isPrefixOf 'H' 'm' (by decide) 2 (by omega)
                        ('m' :: t)]),
                  if_pos (show tokm.isPrefixOf ('m' :: 'm' :: t) = true from
                    isPrefixOf_append_self tokm t)]
                simp only [List.drop_succ_cons, List.drop_zero]
              · -- no token fires: the head character is copied
                simp only [Bool.not_eq_true] at hpm
                simp only [formatDateL]
                rw [replaceFirst_cons_not tokY (natDigits d.year) c rest hpY]
                have hM1 : tokM.isPrefixOf
                    (c :: replaceFirst tokY (natDigits d.year) rest) = false :=
                  cons_block_transfer 'M' 'Y' (by decide) (by decide) 4 (by omega)
                    (natDigits d.year) (natDigits_digits d.year) (natDigits_ne_nil d.year)
                    c rest 2 (by omega) hpM
                rw [replaceFirst_cons_not tokM (pad2 d.month) c _ hM1]
                have hD1 : tokD.isPrefixOf
                    (c :: replaceFirst tokY (natDigits d.year) rest) = false :=
                  cons_block_transfer 'D' 'Y' (by decide) (by decide) 4 (by omega)
                    (natDigits d.year) (natDigits_digits d.year) (natDigits_ne_nil d.year)
                    c rest 2 (by omega) hpD
                have hD2 : tokD.isPrefixOf
                    (c :: replaceFirst tokM (pad2 d.month)
                      (replaceFirst tokY (natDigits d.year) rest)) = false :=
                  cons_block_transfer 'D' 'M' (by decide) (by decide) 2 (by omega)
                    (pad2 d.month) (pad2_digits d.month) (pad2_ne_nil d.month)
                    c _ 2 (by omega) hD1
                rw [replaceFirst_cons_not tokD (pad2 d.day) c _ hD2]
                have hH1 : tokH.isPrefixOf
                    (c :: replaceFirst tokY (natDigits d.year) rest) = false :=
                  cons_block_transfer 'H' 'Y' (by decide) (by decide) 4 (by omega)
                    (natDigits d.year) (natDigits_digits d.year) (natDigits_ne_nil d.year)
                    c rest 2 (by omega) hpH
                have hH2 : tokH.isPrefixOf
                    (c :: replaceFirst tokM (pad2 d.month)
                      (replaceFirst tokY (natDigits d.year) rest)) = false :=
                  cons_block_transfer 'H' 'M' (by decide) (by decide) 2 (by omega)
                    (pad2 d.month) (pad2_digits d.month) (pad2_ne_nil d.month)
                    c _ 2 (by omega) hH1
                have hH3 : tokH.isPrefixOf
                    (c :: replaceFirst tokD (pad2 d.day)
                      (replaceFirst tokM (pad2 d.month)
                        (replaceFirst tokY (natDigits d.year) rest))) = false :=
                  cons_block_transfer 'H' 'D' (by decide) (by decide) 2 (by omega)
                    (pad2 d.day) (pad2_digits d.day) (pad2_ne_nil d.day) c _ 2 (by omega) hH2
                rw [replaceFirst_cons_not tokH (pad2 d.hour) c _ hH3]
                have hm1 : tokm.isPrefixOf
                    (c :: replaceFirst tokY (natDigits d.year) rest) = false :=
                  cons_block_transfer 'm' 'Y' (by decide) (by decide) 4 (by omega)
                    (natDigits d.year) (natDigits_digits d.year) (natDigits_ne_nil d.year)
                    c rest 2 (by omega) hpm
                have hm2 : tokm.isPrefixOf
                    (c :: replaceFirst tokM (pad2 d.month)
                      (replaceFirst tokY (natDigits d.year) rest)) = false :=
                  cons_block_transfer 'm' 'M' (by decide) (by decide) 2 (by omega)
                    (pad2 d.month) (pad2_digits d.month) (pad2_ne_nil d.month)
                    c _ 2 (by omega) hm1
                have hm3 : tokm.isPrefixOf
                    (c :: replaceFirst tokD (pad2 d.day)
                      (replaceFirst tokM (pad2 d.month)
                        (replaceFirst tokY (natDigits d.year) rest))) = false :=
                  cons_block_transfer 'm' 'D' (by decide) (by decide) 2 (by omega)
                    (pad2 d.day) (pad2_digits d.day) (pad2_ne_nil d.day) c _ 2 (by omega) hm2
                have hm4 : tokm.isPrefixOf
                    (c :: replaceFirst tokH (pad2 d.hour)
                      (replaceFirst tokD (pad2 d.day)
                        (replaceFirst tokM (pad2 d.month)
                          (replaceFirst tokY (natDigits d.year) rest)))) = false :=
                  cons_block_transfer 'm' 'H' (by decide) (by decide) 2 (by omega)
                    (pad2 d.hour) (pad2_digits d.hour) (pad2_ne_nil d.hour) c _ 2 (by omega) hm3
                rw [replaceFirst_cons_not tokm (pad2 d.minute) c _ hm4]
                have hih : formatDateL d rest = renderFormat d rest :=
                  ih rest (by simp only [List.length_cons] at hlen; omega)
                    (le_trans (countOcc_cons_le tokY c rest) hY)
                    (le_trans (countOcc_cons_le tokM c rest) hM)
                    (le_trans (countOcc_cons_le tokD c rest) hD)
                    (le_trans (countOcc_cons_le tokH c rest) hH)
                    (le_trans (countOcc_cons_le tokm c rest) hm)
                simp only [formatDateL] at hih
                rw [hih]
                simp only [renderFormat]
                rw [if_neg (by simp [hpY]), if_neg (by simp [hpM]), if_neg (by simp [hpD]),
                  if_neg (by simp [hpH]), if_neg (by simp [hpm])]

/-- Two-digit zero-padded components have exactly two digits for values
below one hundred. -/
theorem pad2_len_two (n : Nat) (h : n < 100) : (pad2 n).length = 2 := by
  have hall : ∀ m, m < 100 → (pad2 m).length = 2 := by decide
  exact hall n h

/-- C6 counterexample: for the valid date with year 500 the YYYY token
is replaced by the three-character string 500 — not by a four-digit
year — so the output of the default format does not start with four
digit characters. -/
theorem formatDate_year_counterexample :
    formatDateL ⟨500, 1, 2, 0, 0⟩ ("YYYY-MM-DD".data) = "500-01-02".data ∧
    (List.take 4 (formatDateL ⟨500, 1, 2, 0, 0⟩ ("YYYY-MM-DD".data))).all Char.isDigit
      = false := by
  refine ⟨by decide, by decide⟩

/-- C6 (amended): for every date and every format string in which each
of the tokens YYYY, MM, DD, HH, mm occurs at most once, `formatDate`
replaces YYYY with the decimal (unpadded) year — four digits exactly
when the year lies in 1000..9999 — and MM, DD, HH, mm with the
two-digit zero-padded month, day, hour and minute (the padded
components have exactly two digits for the component ranges of a valid
date). -/
theorem formatDate_spec (d : DateParts) (fmt : List Char)
    (hY : countOcc tokY fmt ≤ 1) (hM : countOcc tokM fmt ≤ 1) (hD : countOcc tokD fmt ≤ 1)
    (hH : countOcc tokH fmt ≤ 1) (hm : countOcc tokm fmt ≤ 1)
    (hmo : d.month ≤ 12) (hda : d.day ≤ 31) (hho : d.hour ≤ 23) (hmi : d.minute ≤ 59) :
    formatDateL d fmt = renderFormat d fmt ∧
    (pad2 d.month).length = 2 ∧ (pad2 d.day).length = 2 ∧
    (pad2 d.hour).length = 2 ∧ (pad2 d.minute).length = 2 :=
  ⟨formatDateL_renderFormat_aux d fmt.length fmt le_rfl hY hM hD hH hm,
    pad2_len_two d.month (by omega), pad2_len_two d.day (by omega),
    pad2_len_two d.hour (by omega), pad2_len_two d.minute (by omega)⟩

/-- Witness for the formatDate theorem at a concrete date and the
default format. -/
theorem formatDate_spec_witness :
    formatDateL ⟨2024, 3, 5, 14, 7⟩ ("YYYY-MM-DD".data) =
      renderFormat ⟨2024, 3, 5, 14, 7⟩ ("YYYY-MM-DD".data) ∧
    (pad2 (⟨2024, 3, 5, 14, 7⟩ : DateParts).month).length = 2 ∧
    (pad2 (⟨2024, 3, 5, 14, 7⟩ : DateParts).day).length = 2 ∧
    (pad2 (⟨2024, 3, 5, 14, 7⟩ : DateParts).hour).length = 2 ∧
    (pad2 (⟨2024, 3, 5, 14, 7⟩ : DateParts).minute).length = 2 :=
  formatDate_spec ⟨2024, 3, 5, 14, 7⟩ ("YYYY-MM-DD".data) (by decide) (by decide) (by decide)
    (by decide) (by decide) (by decide) (by decide) (by decide) (by decide)

end MDM
